import Mathlib

/-!
Shallow embedding of the integrity-check and mount/file-access layer of the
`rustic` repository (src/src/commands/check.rs and src/src/commands/mount/fs.rs),
together with theorems settling the frozen claims about it.

Machine integers are modelled as `Nat` with explicit `% 2^w` where overflow
matters; fallible Rust code returns `Except`; a Rust panic (`unwrap` on `None`
or on an `Err`, `unimplemented!`) is modelled by an outer `Option` whose `none`
value means "terminates abnormally".
-/

namespace Rustic

/-- A content hash.  `Id` is a fixed-width binary hash with bit-wise equality;
we model it as `Nat`.  The all-zero value is the null sentinel. -/
abbrev RId := Nat

/-- `Id::is_null`: the zero-valued Id is the "absent reference" sentinel. -/
def RId.is_null (id : RId) : Bool := id == 0

/-- `libc::ENOENT` (NotFound error code). -/
def ENOENT : Int := 2

/-- `libc::ENOSYS` (the "unsupported" error code this layer uses for most failures). -/
def ENOSYS : Int := 38

/-- `BlobType` (`tpe` of a blob): tree or data. -/
inductive BlobType
  | tree
  | data
deriving DecidableEq, Repr

/-- `NodeType` from rustic_core's repofile, as matched in
`node_to_filetype` / `node_type_to_rdev`: file, dir, symlink (with target),
character device and block device (with device number), fifo, socket. -/
inductive NodeType
  | file
  | dir
  | symlink (linktarget : String)
  | chardev (device : Nat)
  | dev (device : Nat)
  | fifo
  | socket
deriving DecidableEq, Repr

/-- An extended attribute: a name and a raw value.  The name is kept as a byte
list (the source converts `String` names to null-terminated C strings). -/
structure ExtAttr where
  name : List Nat
  value : List Nat
deriving DecidableEq, Repr

/-- Modelled from the spec: the node metadata record
`{size, uid?, gid?, mode?, atime?, mtime?, ctime?, links?, xattrs}`
(its defining struct lives in rustic_core, outside src/; the spec's data model
lists uid, gid, mode, the three timestamps and the link count as optional).
Timestamps are modelled as `Nat` instants. -/
structure Metadata where
  size : Nat
  mode : Option Nat
  uid : Option Nat
  gid : Option Nat
  atime : Option Nat
  mtime : Option Nat
  ctime : Option Nat
  links : Option Nat
  extended_attributes : List ExtAttr
deriving DecidableEq, Repr

/-- A filesystem `Node`: name, type, metadata, optional subtree Id (directories)
and ordered content-blob Id list (files).  From the spec's data model and the
accessors used in src (`node.subtree`, `node.content()`, `node.meta`). -/
structure Node where
  name : String
  node_type : NodeType
  meta : Metadata
  subtree : Option RId
  content : List RId
deriving DecidableEq, Repr

/-- A `Tree`: ordered list of nodes, addressed by its own Id. -/
structure Tree where
  nodes : List Node
deriving DecidableEq, Repr

/-- `fuse_mt::FileType` as used by `node_to_filetype`. -/
inductive FileKind
  | regularFile
  | directory
  | symlink
  | charDevice
  | blockDevice
  | namedPipe
  | socket
deriving DecidableEq, Repr

/-- `node_to_filetype` (src/src/commands/mount/fs.rs, lines 49-59):
maps each `NodeType` constructor to its `FileType`. -/
def node_to_filetype (node : Node) : FileKind :=
  match node.node_type with
  | .file => .regularFile
  | .dir => .directory
  | .symlink _ => .symlink
  | .chardev _ => .charDevice
  | .dev _ => .blockDevice
  | .fifo => .namedPipe
  | .socket => .socket

/-- `node_type_to_rdev` (fs.rs, lines 61-68): the device number for `Dev` and
`Chardev` nodes, 0 for every other node type; `u32::try_from(..).unwrap()`
panics (modelled as `none`) when the device number does not fit in `u32`. -/
def node_type_to_rdev (tpe : NodeType) : Option Nat :=
  let d := match tpe with
    | .dev device => device
    | .chardev device => device
    | _ => 0
  if d < 2 ^ 32 then some d else none

/-- `fuse_mt::FileAttr` as filled in by `getattr`.  Times are `Nat` instants. -/
structure FileAttr where
  size : Nat
  blocks : Nat
  atime : Nat
  mtime : Nat
  ctime : Nat
  crtime : Nat
  kind : FileKind
  perm : Nat
  nlink : Nat
  uid : Nat
  gid : Nat
  rdev : Nat
  flags : Nat
deriving DecidableEq, Repr

/-- The attribute record built by `RusticFS::getattr` (fs.rs, lines 71-104) for
an already-resolved node; `now` is the filesystem's start time (`self.now`).
`perm` is `node.meta.mode.unwrap_or(0) as u16` (truncating cast), `nlink` is
`node.meta.links.try_into().unwrap_or(1)` (falls back to 1 when the link count
is absent or does not fit in `u32`), and `rdev` comes from `node_type_to_rdev`
(whose `unwrap` panic is propagated as `none`). -/
def getattr_node (now : Nat) (node : Node) : Option FileAttr :=
  match node_type_to_rdev node.node_type with
  | none => none
  | some rdev => some
    { size := node.meta.size
      blocks := 0
      atime := node.meta.atime.getD now
      mtime := node.meta.mtime.getD now
      ctime := node.meta.ctime.getD now
      crtime := now
      kind := node_to_filetype node
      perm := node.meta.mode.getD 0 % 2 ^ 16
      nlink := match node.meta.links with
        | some l => if l < 2 ^ 32 then l else 1
        | none => 1
      uid := node.meta.uid.getD 0
      gid := node.meta.gid.getD 0
      rdev := rdev
      flags := 0 }

/-- An open-file record (`rustic_core::OpenFile`): the node's ordered
(Id, length) content-blob list, built once at `open` (spec §4.2). -/
structure OpenFile where
  blobs : List (RId × Nat)
deriving DecidableEq, Repr

/-- The shared handle table: `BTreeMap<u64, OpenFile>`, modelled as an
association list whose keys are kept strictly increasing. -/
abbrev HandleTable := List (Nat × OpenFile)

/-- Keys of a handle table. -/
def HandleTable.keys (t : HandleTable) : List Nat := t.map Prod.fst

/-- `BTreeMap::get`. -/
def HandleTable.get? (t : HandleTable) (k : Nat) : Option OpenFile :=
  match t with
  | [] => none
  | (k', v) :: rest => if k = k' then some v else HandleTable.get? rest k

/-- `BTreeMap::insert`: replaces the value when the key is present, otherwise
inserts keeping keys sorted. -/
def HandleTable.insert (t : HandleTable) (k : Nat) (v : OpenFile) : HandleTable :=
  match t with
  | [] => [(k, v)]
  | (k', v') :: rest =>
    if k < k' then (k, v) :: (k', v') :: rest
    else if k = k' then (k, v) :: rest
    else (k', v') :: HandleTable.insert rest k v

/-- `BTreeMap::remove` (value discarded by `release`). -/
def HandleTable.remove (t : HandleTable) (k : Nat) : HandleTable :=
  match t with
  | [] => []
  | (k', v') :: rest => if k = k' then rest else (k', v') :: HandleTable.remove rest k

/-- `BTreeMap::first_key_value`: smallest key with its value (the head of the
sorted association list). -/
def HandleTable.first_key_value (t : HandleTable) : Option (Nat × OpenFile) := t.head?

/-- The handle chosen by `RusticFS::open` (fs.rs, line 121):
`open_files.first_key_value().map(|(fh, _)| *fh).unwrap_or(0)` — the smallest
key currently IN the table, or 0 when the table is empty. -/
def open_fh (t : HandleTable) : Nat :=
  (t.first_key_value.map Prod.fst).getD 0

/-- `RusticFS::open` on an already-built `OpenFile` (fs.rs, lines 117-124):
chooses `open_fh`, inserts, and returns the handle together with the updated
table. -/
def open_insert (t : HandleTable) (o : OpenFile) : Nat × HandleTable :=
  let fh := open_fh t
  (fh, t.insert fh o)

/-- `RusticFS::release` (fs.rs, lines 126-137): removes the handle (ignoring
whether it was present) and returns success. -/
def release (t : HandleTable) (fh : Nat) : Except Int Unit × HandleTable :=
  (Except.ok (), t.remove fh)

/-- `RusticFS::read` (fs.rs, lines 139-158) on a handle table: looks the handle
up; if present, delegates to `read_file_at` (a collaborator, passed as the
function `readAt`); any failure — unknown handle or a failing read — reaches
the callback as `Err(libc::ENOSYS)`. -/
def read (readAt : OpenFile → Nat → Nat → Except Unit (List Nat))
    (t : HandleTable) (fh offset size : Nat) : Except Int (List Nat) :=
  match t.get? fh with
  | some o =>
    match readAt o offset size with
    | .ok data => .ok data
    | .error _ => .error ENOSYS
  | none => .error ENOSYS

/-- A reply of the xattr operations: either a size probe answer or data bytes
(`fuse_mt::Xattr`). -/
inductive XattrReply
  | size (n : Nat)
  | data (bytes : List Nat)
deriving DecidableEq, Repr

/-- `CString::new(a.name).unwrap().into_bytes_with_nul()` (fs.rs, line 194):
appends the terminating null byte; the `unwrap` panics (`none`) when the name
contains an interior null byte. -/
def cstring_bytes (name : List Nat) : Option (List Nat) :=
  if 0 ∈ name then none else some (name ++ [0])

/-- The `.map(..).concat()` over the node's extended attributes in `listxattr`:
each name converted to a null-terminated byte string and all concatenated;
`none` when any conversion panics. -/
def xattr_names_bytes : List ExtAttr → Option (List Nat)
  | [] => some []
  | a :: rest =>
    match cstring_bytes a.name with
    | none => none
    | some bs => (xattr_names_bytes rest).map (fun tail => bs ++ tail)

/-- `RusticFS::listxattr` (fs.rs, lines 187-202) on an already-resolved node:
builds the null-terminated-name concatenation; with `size == 0` answers only
its total byte length (`u32::try_from(..).unwrap()` panics when it does not
fit in `u32`), otherwise answers the bytes. -/
def listxattr (node : Node) (size : Nat) : Option XattrReply :=
  match xattr_names_bytes node.meta.extended_attributes with
  | none => none
  | some xattrs =>
    if size = 0 then
      if xattrs.length < 2 ^ 32 then some (.size xattrs.length) else none
    else some (.data xattrs)

/-- `RusticFS::getxattr` (fs.rs, lines 204-221) on an already-resolved node:
finds the first attribute with the given name; absent attributes answer
`Err(libc::ENOSYS)`; with `size == 0` the stored value's byte length is
answered, otherwise the raw value. -/
def getxattr (node : Node) (name : List Nat) (size : Nat) : Option (Except Int XattrReply) :=
  match node.meta.extended_attributes.find? (fun a => a.name == name) with
  | none => some (.error ENOSYS)
  | some attr =>
    if size = 0 then
      if attr.value.length < 2 ^ 32 then some (.ok (.size attr.value.length)) else none
    else some (.ok (.data attr.value))

/-- The filesystem state assembled by `RusticFS::from_node`. -/
structure RusticFSState where
  root : RId
  now : Nat
  open_files : HandleTable
deriving DecidableEq, Repr

/-- `RusticFS::from_node` (fs.rs, lines 30-39): unconditionally unwraps the
node's `subtree` (`node.subtree.unwrap()`, line 35) — a node without a subtree
makes construction panic (`none`). -/
def from_node (now : Nat) (node : Node) : Option RusticFSState :=
  match node.subtree with
  | none => none
  | some root => some { root := root, now := now, open_files := [] }

/-- `RusticFS::node_from_path` (fs.rs, lines 41-47): delegates path resolution
to the repository collaborator `lookup` and maps any failure to
`libc::ENOENT`. -/
def node_from_path (lookup : RId → List String → Except Unit Node)
    (root : RId) (path : List String) : Except Int Node :=
  match lookup root path with
  | .ok node => .ok node
  | .error _ => .error ENOENT

/-- `RusticFS::readdir` (fs.rs, lines 164-181): resolves the path, then
unconditionally unwraps the node's `subtree` (line 169; panic — `none` — when
absent), fetches the tree via the collaborator `get_tree` (failure mapped to
`ENOSYS`), and lists the child nodes as (name, kind) in stored order. -/
def readdir (lookup : RId → List String → Except Unit Node)
    (get_tree : RId → Except Unit Tree) (root : RId) (path : List String) :
    Option (Except Int (List (String × FileKind))) :=
  match node_from_path lookup root path with
  | .error e => some (.error e)
  | .ok node =>
    match node.subtree with
    | none => none
    | some st =>
      match get_tree st with
      | .error _ => some (.error ENOSYS)
      | .ok tree => some (.ok (tree.nodes.map (fun n => (n.name, node_to_filetype n))))

/-- A blob entry of a pack descriptor in an index file (`IndexBlob`): id, type,
offset and length inside the pack (`offset`, `length` are `u32`). -/
structure IndexBlob where
  id : RId
  tpe : BlobType
  offset : Nat
  length : Nat
deriving DecidableEq, Repr

/-- A pack descriptor inside an index file (`IndexPack`).  The `blob_type` and
`pack_size` fields are modelled from the spec: the pack's declared uniform blob
kind and declared total size (the methods `IndexPack::blob_type` and
`IndexPack::pack_size` are defined outside src/). -/
structure IndexPack where
  id : RId
  blob_type : BlobType
  pack_size : Nat
  blobs : List IndexBlob
deriving DecidableEq, Repr

/-- An `IndexFile`: a batch of pack descriptors split into live `packs` and
`packs_to_delete`. -/
structure IndexFile where
  packs : List IndexPack
  packs_to_delete : List IndexPack
deriving DecidableEq, Repr

/-- The file categories handled by the checker (`backend::FileType`). -/
inductive FileType
  | snapshot
  | index
  | pack
deriving DecidableEq, Repr

/-- One diagnostic line printed by the checker (`eprintln!` in check.rs),
as a structured value: constructor per message shape. -/
inductive Diag
  | blobTypeMismatch (pack blob : RId) (found expected : BlobType)
  | blobOffsetMismatch (pack blob : RId) (found expected : Nat)
  | packNotReferenced (pack : RId)
  | packSizeMismatch (pack : RId) (indexSize actualSize : Nat)
  | packMissing (pack : RId)
  | fileNullId (path : List String) (idx : Nat)
  | fileMissingInIndex (path : List String) (id : RId)
  | dirSubtreeMissing (path : List String)
  | dirSubtreeNull (path : List String)
  | cacheMismatch (ft : FileType) (id : RId)
deriving DecidableEq, Repr

/-- Insertion of one blob into an offset-sorted list. -/
def insertByOffset (b : IndexBlob) : List IndexBlob → List IndexBlob
  | [] => [b]
  | c :: rest =>
    if b.offset ≤ c.offset then b :: c :: rest else c :: insertByOffset b rest

/-- Modelled from the spec: `blobs.sort_unstable()` (check.rs, line 113) sorts
by the blob ordering derived outside src/; the spec states the blobs are
sorted by offset. -/
def sortByOffset (l : List IndexBlob) : List IndexBlob :=
  l.foldr insertByOffset []

/-- The per-blob loop of `process_pack` (check.rs, lines 111-129): walks the
sorted blobs carrying the `u32` running offset `expected` (wrapping add),
emitting a type-mismatch diagnostic and an offset-mismatch diagnostic per
violating blob, never aborting. -/
def processPackLoop (packId : RId) (bt : BlobType) : Nat → List IndexBlob → List Diag
  | _, [] => []
  | expected, b :: rest =>
    (if b.tpe ≠ bt then [.blobTypeMismatch packId b.id b.tpe bt] else []) ++
    (if b.offset ≠ expected then [.blobOffsetMismatch packId b.id b.offset expected] else []) ++
    processPackLoop packId bt ((expected + b.length) % 2 ^ 32) rest

/-- The diagnostics of `process_pack` (check.rs, lines 105-130) for one pack:
sort the blobs, then check uniform kind and offset contiguity from 0. -/
def process_pack_diags (p : IndexPack) : List Diag :=
  processPackLoop p.id p.blob_type 0 (sortByOffset p.blobs)

/-- `HashMap::get`-style lookup in the accumulated pack-size map. -/
def pmLookup (m : List (RId × Nat)) (k : RId) : Option Nat :=
  match m with
  | [] => none
  | (k', v) :: rest => if k = k' then some v else pmLookup rest k

/-- `HashMap::insert`: replaces the value when the key is present, otherwise
appends. -/
def pmInsert (m : List (RId × Nat)) (k : RId) (v : Nat) : List (RId × Nat) :=
  match m with
  | [] => [(k, v)]
  | (k', v') :: rest =>
    if k = k' then (k, v) :: rest else (k', v') :: pmInsert rest k v

/-- `HashMap::remove`: drops the entry with the given key (if any). -/
def pmRemove (m : List (RId × Nat)) (k : RId) : List (RId × Nat) :=
  match m with
  | [] => []
  | (k', v') :: rest => if k = k' then rest else (k', v') :: pmRemove rest k

/-- Keys of the accumulated pack-size map. -/
def pmKeys (m : List (RId × Nat)) : List RId := m.map Prod.fst

/-- The index-streaming loop of `check_packs` (check.rs, lines 134-144): per
index file, extend the collector with the `packs` list only, then run
`process_pack` over `packs` followed by `packs_to_delete`, inserting
`(p.id, p.pack_size())` into the accumulated map (the insert happens inside
`process_pack`, line 106).  Returns the emitted diagnostics, the accumulated
pack-size map and the collector contents in stream order. -/
def index_phase_step (acc : List Diag × List (RId × Nat) × List IndexPack)
    (f : IndexFile) : List Diag × List (RId × Nat) × List IndexPack :=
  let coll := acc.2.2 ++ f.packs
  let dm := (f.packs ++ f.packs_to_delete).foldl
    (fun (dm : List Diag × List (RId × Nat)) (p : IndexPack) =>
      (dm.1 ++ process_pack_diags p, pmInsert dm.2 p.id p.pack_size))
    (acc.1, acc.2.1)
  (dm.1, dm.2, coll)

/-- The whole index-streaming phase of `check_packs` over the streamed index
files. -/
def index_phase (idx : List IndexFile) : List Diag × List (RId × Nat) × List IndexPack :=
  idx.foldl index_phase_step ([], [], [])

/-- The backend-listing reconciliation loop of `check_packs` (check.rs, lines
148-159): for each listed `(id, size)`, `packs.remove(&id)` — absent keys give
a "not referenced in index" diagnostic, present keys with a differing size a
size-mismatch diagnostic; matched entries leave the map. -/
def reconcile (m : List (RId × Nat)) : List (RId × Nat) → List Diag × List (RId × Nat)
  | [] => ([], m)
  | (id, size) :: rest =>
    match pmLookup m id with
    | none =>
      let dm := reconcile m rest
      (.packNotReferenced id :: dm.1, dm.2)
    | some index_size =>
      let dm := reconcile (pmRemove m id) rest
      ((if index_size ≠ size then [.packSizeMismatch id index_size size] else []) ++ dm.1,
       dm.2)

/-- The final loop of `check_packs` (check.rs, lines 161-166): every entry left
in the accumulated map is reported as referenced by the index but not
present. -/
def leftover_diags (m : List (RId × Nat)) : List Diag :=
  m.map (fun kv => .packMissing kv.1)

/-- `check_packs` (check.rs, lines 101-169), with the backend pack listing
passed in: streams the index, reconciles against the listing, reports
leftovers, and returns the collector (built from the `packs` lists only). -/
def check_packs (idx : List IndexFile) (packListing : List (RId × Nat)) :
    List Diag × List IndexPack :=
  let ip := index_phase idx
  let rec' := reconcile ip.2.1 packListing
  (ip.1 ++ rec'.1 ++ leftover_diags rec'.2, ip.2.2)

/-- Modelled from the spec: the Index lookup built by the Checker from the
streamed IndexFiles (`IndexCollector`/`has_data` are defined outside src/):
an Id resolves exactly when some collected pack holds a blob with that Id. -/
def has_data (coll : List IndexPack) (id : RId) : Bool :=
  coll.any (fun p => p.blobs.any (fun b => b.id == id))

/-- The body of the per-content loop for a File node (check.rs, lines
192-204), on one enumerated `(i, id)` entry: a null-ID diagnostic when the Id
is null and, independently (no `else`), a missing-in-index diagnostic when the
lookup fails. -/
def file_entry_diags (hasData : RId → Bool) (p : List String) (pr : Nat × RId) :
    List Diag :=
  (if (pr.2).is_null then [.fileNullId p pr.1] else []) ++
  (if !hasData pr.2 then [.fileMissingInIndex p pr.2] else [])

/-- The per-node body of the tree-checking loop of `check_snapshots`
(check.rs, lines 189-221): for a File node, each enumerated content Id gets
the `file_entry_diags` checks; for a Dir node, an absent subtree or a null
subtree Id is reported; other node types are not checked. -/
def check_node_diags (hasData : RId → Bool) (path : List String) (node : Node) :
    List Diag :=
  match node.node_type with
  | .file =>
    node.content.enum.flatMap (file_entry_diags hasData (path ++ [node.name]))
  | .dir =>
    match node.subtree with
    | none => [.dirSubtreeMissing (path ++ [node.name])]
    | some t => if t.is_null then [.dirSubtreeNull (path ++ [node.name])] else []
  | _ => []

/-- The tree-checking loop of `check_snapshots` (check.rs, lines 184-222) over
the items yielded by the tree streamer (`TreeStreamerOnce`, a collaborator
defined outside src/, yields `(path, tree)` pairs, each reachable tree once). -/
def check_snapshots_diags (hasData : RId → Bool)
    (items : List (List String × Tree)) : List Diag :=
  items.flatMap (fun it => it.2.nodes.flatMap (check_node_diags hasData it.1))

/-- The decrypting backend collaborator used by `execute`/`check_packs`/
`check_snapshots` (`DecryptReadBackend`): listing, index streaming (the full
decoded sequence or the first fatal error) and snapshot streaming (already
mapped to the root tree Ids, as in check.rs lines 175-181). -/
structure DecryptBe where
  list_with_size : FileType → Except Nat (List (RId × Nat))
  stream_index : Except Nat (List IndexFile)
  stream_snapshots : Except Nat (List RId)

/-- The local cache collaborator (`Cache`). -/
structure CacheBe where
  list_with_size : FileType → Except Nat (List (RId × Nat))
  read_full : FileType → RId → Except Nat (List Nat)

/-- The raw backend collaborator (`ReadBackend`). -/
structure RawBe where
  read_full : FileType → RId → Except Nat (List Nat)

/-- The comparison loop of `check_cache_files` (check.rs, lines 75-94): for
each cached `(id, size)` pair, read the full contents from the cache and from
the backend — both reads are `.unwrap()`ed, so a read failure PANICS (`none`)
instead of propagating — and report a diagnostic when the bytes differ.  The
source runs the comparisons with `for_each_concurrent(5, ..)`; emission order
is unspecified there and modelled here in listing order. -/
def cache_compare (cache : CacheBe) (be : RawBe) (ft : FileType) :
    List (RId × Nat) → Option (List Diag)
  | [] => some []
  | (id, _) :: rest =>
    match cache.read_full ft id with
    | .error _ => none
    | .ok data_cached =>
      match be.read_full ft id with
      | .error _ => none
      | .ok data =>
        (cache_compare cache be ft rest).map
          (fun d => (if data_cached ≠ data then [.cacheMismatch ft id] else []) ++ d)

/-- `check_cache_files` (check.rs, lines 60-98): list the cached files (listing
failures propagate via `?`), return at once when none, otherwise run the
comparison loop (whose read failures panic). -/
def check_cache_files (cache : CacheBe) (be : RawBe) (ft : FileType) :
    Option (Except Nat (List Diag)) :=
  match cache.list_with_size ft with
  | .error e => some (.error e)
  | .ok files =>
    if files.isEmpty then some (.ok [])
    else (cache_compare cache be ft files).map .ok

/-- The Phase-1 part of `execute` (check.rs, lines 27-38): when a cache is
configured, for each of the snapshot and index categories first list the files
on the decrypting backend (`?`-propagated) and then run `check_cache_files`. -/
def execute_phase1 (be : DecryptBe) (cache : Option CacheBe) (raw_be : RawBe) :
    Option (Except Nat (List Diag)) :=
  match cache with
  | none => some (.ok [])
  | some c =>
    match be.list_with_size .snapshot with
    | .error e => some (.error e)
    | .ok _ =>
      match check_cache_files c raw_be .snapshot with
      | none => none
      | some (.error e) => some (.error e)
      | some (.ok d1) =>
        match be.list_with_size .index with
        | .error e => some (.error e)
        | .ok _ =>
          match check_cache_files c raw_be .index with
          | none => none
          | some (.error e) => some (.error e)
          | some (.ok d2) => some (.ok (d1 ++ d2))

/-- `execute` (check.rs, lines 21-58): Phase 1 (optional cache checks), Phase 2
(`check_packs`, with the backend pack listing obtained through
`list_with_size`), the cached-pack comparison, Phase 3 (`check_snapshots`,
with the tree streamer passed as the collaborator `streamTrees`), and the
`unimplemented!()` panic behind `--read-data`.  The value is `none` on any
panic, `some (.error e)` on a propagated fatal failure, and `some (.ok ds)`
with the emitted diagnostics on success. -/
def execute (be : DecryptBe) (cache : Option CacheBe) (raw_be : RawBe)
    (streamTrees : List RId → Except Nat (List (List String × Tree)))
    (read_data : Bool) : Option (Except Nat (List Diag)) :=
  match execute_phase1 be cache raw_be with
  | none => none
  | some (.error e) => some (.error e)
  | some (.ok dcache) =>
    match be.stream_index with
    | .error e => some (.error e)
    | .ok idx =>
      match be.list_with_size .pack with
      | .error e => some (.error e)
      | .ok packListing =>
        let cp := check_packs idx packListing
        let pcache : Option (Except Nat (List Diag)) :=
          match cache with
          | none => some (.ok [])
          | some c => check_cache_files c raw_be .pack
        match pcache with
        | none => none
        | some (.error e) => some (.error e)
        | some (.ok d3) =>
          match be.stream_snapshots with
          | .error e => some (.error e)
          | .ok snap_trees =>
            match streamTrees snap_trees with
            | .error e => some (.error e)
            | .ok items =>
              if read_data then none
              else some (.ok (dcache ++ cp.1 ++ d3 ++
                check_snapshots_diags (has_data cp.2) items))

/-- A metadata record with every optional field absent, used as concrete
input in several evaluations. -/
def sampleMeta : Metadata :=
  Metadata.mk 0 none none none none none none none []

/-! ### Helper lemmas on the handle table -/

lemma get?_eq_none_of_not_mem (t : HandleTable) (k : Nat)
    (h : k ∉ HandleTable.keys t) : HandleTable.get? t k = none := by
  induction t with
  | nil => rfl
  | cons kv rest ih =>
    obtain ⟨k', v⟩ := kv
    simp only [HandleTable.keys, List.map_cons, List.mem_cons] at h
    push_neg at h
    simp only [HandleTable.get?, if_neg h.1]
    exact ih h.2

lemma get?_remove_self (t : HandleTable) (k : Nat)
    (h : (HandleTable.keys t).Nodup) :
    HandleTable.get? (HandleTable.remove t k) k = none := by
  induction t with
  | nil => rfl
  | cons kv rest ih =>
    obtain ⟨k', v⟩ := kv
    simp only [HandleTable.keys, List.map_cons, List.nodup_cons] at h
    by_cases hk : k = k'
    · subst hk
      simp only [HandleTable.remove, if_pos rfl]
      exact get?_eq_none_of_not_mem rest k h.1
    · simp only [HandleTable.remove, if_neg hk, HandleTable.get?, if_neg hk]
      exact ih h.2

lemma remove_eq_of_get?_none (t : HandleTable) (k : Nat)
    (h : HandleTable.get? t k = none) : HandleTable.remove t k = t := by
  induction t with
  | nil => rfl
  | cons kv rest ih =>
    obtain ⟨k', v⟩ := kv
    by_cases hk : k = k'
    · simp [HandleTable.get?, hk] at h
    · simp only [HandleTable.get?, if_neg hk] at h
      simp only [HandleTable.remove, if_neg hk]
      rw [ih h]

/-! ### Claims C1, C2 -/

/-- C1 — the claim says `open` picks the smallest currently-UNUSED handle key,
never colliding with a present key and never replacing an open handle's entry.
The code (`open_files.first_key_value().map(|(fh, _)| *fh).unwrap_or(0)`,
fs.rs line 121) picks the smallest key currently IN the table: starting from a
table holding handle 0 for one open file, a second `open` returns handle 0
again and its insert replaces the live entry, so the new handle equals a
present key and an existing open handle's entry is overwritten. -/
theorem claim_C1_open_reuses_live_handle :
    (open_insert [] ⟨[(1, 100)]⟩ = (0, [(0, (⟨[(1, 100)]⟩ : OpenFile))])) ∧
    (open_insert [(0, (⟨[(1, 100)]⟩ : OpenFile))] ⟨[(2, 200)]⟩).1 = 0 ∧
    (open_insert [(0, (⟨[(1, 100)]⟩ : OpenFile))] ⟨[(2, 200)]⟩).1 ∈
      HandleTable.keys [(0, (⟨[(1, 100)]⟩ : OpenFile))] ∧
    (open_insert [(0, (⟨[(1, 100)]⟩ : OpenFile))] ⟨[(2, 200)]⟩).2 =
      [(0, (⟨[(2, 200)]⟩ : OpenFile))] := by
  refine ⟨rfl, rfl, ?_, rfl⟩
  simp [open_insert, open_fh, HandleTable.first_key_value, HandleTable.keys]

/-- C2 (counterexample) — the claim says a `read` or `release` after a
completed `release` of the same handle fails with `NotFound` (`ENOENT`).  On
the code, after `open` then `release` of handle 0, a subsequent `read` fails
with `ENOSYS` (not `ENOENT`), and a subsequent `release` reports success. -/
theorem claim_C2_counterexample :
    read (fun _ _ _ => .ok [])
      (release (open_insert [] ⟨[(1, 100)]⟩).2 (open_insert [] ⟨[(1, 100)]⟩).1).2
      (open_insert [] ⟨[(1, 100)]⟩).1 0 10 = .error ENOSYS ∧
    ENOSYS ≠ ENOENT ∧
    (release (release (open_insert [] ⟨[(1, 100)]⟩).2 (open_insert [] ⟨[(1, 100)]⟩).1).2
      (open_insert [] ⟨[(1, 100)]⟩).1).1 = .ok () := by
  refine ⟨rfl, by decide, rfl⟩

/-- C2 (amended) — after `release` of a handle completes, the handle is gone
from the table; a subsequent `read` on it returns no data and fails with
`ENOSYS` (the layer's Unsupported code, not `NotFound`), and a subsequent
`release` of the same identifier is a successful no-op (it reports success and
leaves the table unchanged). -/
theorem claim_C2_release_then_ops (t : HandleTable) (fh offset size : Nat)
    (readAt : OpenFile → Nat → Nat → Except Unit (List Nat))
    (h : (HandleTable.keys t).Nodup) :
    (release t fh).1 = .ok () ∧
    HandleTable.get? (release t fh).2 fh = none ∧
    read readAt (release t fh).2 fh offset size = .error ENOSYS ∧
    (release (release t fh).2 fh).1 = .ok () ∧
    (release (release t fh).2 fh).2 = (release t fh).2 := by
  have hg : HandleTable.get? (HandleTable.remove t fh) fh = none :=
    get?_remove_self t fh h
  refine ⟨rfl, hg, ?_, rfl, ?_⟩
  · simp only [read, release]
    rw [hg]
  · show HandleTable.remove (HandleTable.remove t fh) fh = HandleTable.remove t fh
    exact remove_eq_of_get?_none _ _ hg

/-- C2 amended, witnessed at the table obtained by opening one file. -/
theorem claim_C2_release_then_ops_witness :
    HandleTable.get?
      (release (open_insert [] ⟨[(1, 100)]⟩).2 0).2 0 = none :=
  (claim_C2_release_then_ops (open_insert [] ⟨[(1, 100)]⟩).2 0 0 10
    (fun _ _ _ => .ok []) (by decide)).2.1

/-! ### Claim C10 -/

/-- C10 — constructing the filesystem from a node (`from_node`, fs.rs line 35)
and serving `readdir` on a path (fs.rs line 169) both unconditionally unwrap
the node's `subtree`: on a node whose subtree is absent they panic (modelled
`none`) instead of returning a recoverable error. -/
theorem claim_C10_subtree_unwrap_panics (now : Nat) (node : Node)
    (h : node.subtree = none) :
    from_node now node = none ∧
    ∀ lookup get_tree root path, lookup root path = Except.ok node →
      readdir lookup get_tree root path = none := by
  constructor
  · simp [from_node, h]
  · intro lookup get_tree root path hl
    simp [readdir, node_from_path, hl, h]

/-- C10, witnessed on a concrete subtree-less file node. -/
theorem claim_C10_subtree_unwrap_panics_witness :
    from_node 7 (Node.mk "f" .file sampleMeta none []) = none :=
  (claim_C10_subtree_unwrap_panics 7 _ rfl).1

/-! ### Claim C8 -/

/-- Constructor discriminant of a node type (to state that the file-kind map
is one-to-one on node-type constructors). -/
def NodeType.tag : NodeType → Nat
  | .file => 0
  | .dir => 1
  | .symlink _ => 2
  | .chardev _ => 3
  | .dev _ => 4
  | .fifo => 5
  | .socket => 6

/-- The device number carried by a node type: the stored number for `Chardev`
and `Dev`, 0 for every other constructor. -/
def device_of : NodeType → Nat
  | .chardev d => d
  | .dev d => d
  | _ => 0

lemma node_type_to_rdev_eq (t : NodeType) (h : device_of t < 2 ^ 32) :
    node_type_to_rdev t = some (device_of t) := by
  cases t <;> simp_all [node_type_to_rdev, device_of]

lemma node_to_filetype_tag_iff (m1 m2 : Node) :
    node_to_filetype m1 = node_to_filetype m2 ↔
      NodeType.tag m1.node_type = NodeType.tag m2.node_type := by
  cases h1 : m1.node_type <;> cases h2 : m2.node_type <;>
    simp [node_to_filetype, NodeType.tag, h1, h2]

/-- C8 — `getattr` maps stored metadata to the POSIX attribute record: missing
atime/mtime/ctime default to the layer's start time `now`, missing
mode/uid/gid default to 0, a missing link count defaults to 1, the file kind
is the one-to-one image of the node-type constructor, and the device-number
field is the node's device number for `Chardev`/`Dev` nodes and 0 otherwise
(hypothesis: the device number fits in `u32`, else the source's
`u32::try_from(..).unwrap()` panics). -/
theorem claim_C8_getattr_mapping (now : Nat) (node : Node)
    (h : device_of node.node_type < 2 ^ 32) :
    ∃ a, getattr_node now node = some a ∧
      a.atime = node.meta.atime.getD now ∧
      a.mtime = node.meta.mtime.getD now ∧
      a.ctime = node.meta.ctime.getD now ∧
      (node.meta.mode = none → a.perm = 0) ∧
      (node.meta.uid = none → a.uid = 0) ∧
      (node.meta.gid = none → a.gid = 0) ∧
      (node.meta.links = none → a.nlink = 1) ∧
      a.kind = node_to_filetype node ∧
      (∀ m1 m2 : Node, node_to_filetype m1 = node_to_filetype m2 ↔
        NodeType.tag m1.node_type = NodeType.tag m2.node_type) ∧
      a.rdev = device_of node.node_type := by
  simp only [getattr_node, node_type_to_rdev_eq node.node_type h]
  refine ⟨_, rfl, rfl, rfl, rfl, ?_, ?_, ?_, ?_, rfl, node_to_filetype_tag_iff, rfl⟩
  · intro hm; simp [hm]
  · intro hm; simp [hm]
  · intro hm; simp [hm]
  · intro hm; simp [hm]

/-- C8, witnessed on a concrete character-device node with all-absent optional
metadata. -/
theorem claim_C8_getattr_mapping_witness :
    device_of (Node.mk "d" (.chardev 9) sampleMeta none []).node_type < 2 ^ 32 ∧
    ∃ a, getattr_node 5 (Node.mk "d" (.chardev 9) sampleMeta none []) = some a ∧
      a.atime = 5 ∧ a.nlink = 1 ∧ a.rdev = 9 := by
  refine ⟨by norm_num [device_of], ?_⟩
  obtain ⟨a, ha, hat, -, -, -, -, -, hl, -, -, hr⟩ :=
    claim_C8_getattr_mapping 5 (Node.mk "d" (.chardev 9) sampleMeta none [])
      (by norm_num [device_of])
  exact ⟨a, ha, by rw [hat]; rfl, hl rfl, hr.trans rfl⟩

/-! ### Claim C9 -/

lemma xattr_names_bytes_eq (l : List ExtAttr) (h : ∀ a ∈ l, 0 ∉ a.name) :
    xattr_names_bytes l = some ((l.map (fun a => a.name ++ [0])).flatten) := by
  induction l with
  | nil => rfl
  | cons a rest ih =>
    have ha : (0 : Nat) ∉ a.name := h a (by simp)
    simp only [xattr_names_bytes, cstring_bytes, if_neg ha]
    rw [ih (fun b hb => h b (by simp [hb]))]
    simp

/-- C9 (counterexample) — the claim says fetching a named attribute that does
not exist fails with `NotFound`.  On the code, `getxattr` answers
`Err(libc::ENOSYS)` (the Unsupported code), not `ENOENT`, for an absent
attribute name. -/
theorem claim_C9_counterexample :
    getxattr (Node.mk "f" .file sampleMeta none []) [102] 1 =
      some (.error ENOSYS) ∧
    ENOSYS ≠ ENOENT := by
  exact ⟨rfl, by decide⟩

/-- C9 (amended) — listing returns the null-terminated-name concatenation, or
only its total byte length on a size probe (`size == 0`); fetching a named
attribute returns its stored value verbatim when present and the probe is not
requested, its byte length on a size probe, and fails with `ENOSYS` (the
Unsupported code, not `NotFound`) when absent.  Hypotheses: names hold no
interior null byte and the relevant lengths fit in `u32` (else the source's
`unwrap`s panic). -/
theorem claim_C9_xattr_ops (node : Node) (name : List Nat) (size : Nat)
    (hnames : ∀ a ∈ node.meta.extended_attributes, 0 ∉ a.name)
    (hlen : ((node.meta.extended_attributes.map (fun a => a.name ++ [0])).flatten).length
      < 2 ^ 32)
    (hvals : ∀ a ∈ node.meta.extended_attributes, a.value.length < 2 ^ 32) :
    listxattr node 0 =
      some (.size ((node.meta.extended_attributes.map
        (fun a => a.name ++ [0])).flatten).length) ∧
    (size ≠ 0 → listxattr node size =
      some (.data ((node.meta.extended_attributes.map
        (fun a => a.name ++ [0])).flatten))) ∧
    (node.meta.extended_attributes.find? (fun a => a.name == name) = none →
      getxattr node name size = some (.error ENOSYS)) ∧
    (∀ attr, node.meta.extended_attributes.find? (fun a => a.name == name) = some attr →
      (size ≠ 0 → getxattr node name size = some (.ok (.data attr.value))) ∧
      getxattr node name 0 = some (.ok (.size attr.value.length))) := by
  have hb := xattr_names_bytes_eq node.meta.extended_attributes hnames
  refine ⟨?_, ?_, ?_, ?_⟩
  · have hlen' := hlen
    simp only [List.length_flatten, List.map_map] at hlen'
    have hlen2 : (List.map (List.length ∘ fun a => a.name ++ [0])
        node.meta.extended_attributes).sum < 4294967296 := hlen'
    simp [listxattr, hb, hlen2]
  · intro hs
    simp [listxattr, hb, hs]
  · intro hf
    rw [getxattr, hf]
  · intro attr hf
    have hv : attr.value.length < 2 ^ 32 :=
      hvals attr (List.mem_of_find?_eq_some hf)
    constructor
    · intro hs
      simp [getxattr, hf, hs]
    · have hv' : attr.value.length < 4294967296 := hv
      simp [getxattr, hf, hv']

/-- C9 amended, witnessed on a node with one attribute. -/
theorem claim_C9_xattr_ops_witness :
    listxattr (Node.mk "f" .file
      (Metadata.mk 0 none none none none none none none [ExtAttr.mk [120] [9, 9]]) none []) 0 =
      some (.size 2) ∧
    getxattr (Node.mk "f" .file
      (Metadata.mk 0 none none none none none none none [ExtAttr.mk [120] [9, 9]]) none [])
      [120] 0 = some (.ok (.size 2)) := by
  have h := claim_C9_xattr_ops (Node.mk "f" .file
      (Metadata.mk 0 none none none none none none none [ExtAttr.mk [120] [9, 9]]) none [])
      [120] 0 (by decide) (by norm_num) (by decide)
  exact ⟨h.1, (h.2.2.2 (ExtAttr.mk [120] [9, 9]) rfl).2⟩

/-! ### Claim C7 -/

lemma index_phase_coll (idx : List IndexFile) :
    ∀ d m c, (idx.foldl index_phase_step (d, m, c)).2.2 =
      c ++ idx.flatMap (fun f => f.packs) := by
  induction idx with
  | nil => intro d m c; simp
  | cons f rest ih =>
    intro d m c
    rw [List.foldl_cons]
    rcases hstep : index_phase_step (d, m, c) f with ⟨d', m', c'⟩
    have hc : c' = c ++ f.packs := by
      have h0 : (index_phase_step (d, m, c) f).2.2 = c ++ f.packs := rfl
      rw [hstep] at h0
      exact h0
    rw [ih d' m', hc, List.flatMap_cons, List.append_assoc]

/-- C7 — the blob→location collector produced by `check_packs` is built
exclusively from the `packs` lists of the streamed index files
(`index_collector.extend(index.packs.clone())`, check.rs line 137): no
descriptor appearing only in a `packs_to_delete` list enters it, so a blob Id
held solely by packs pending deletion fails the `has_data` lookup. -/
theorem claim_C7_collector_skips_packs_to_delete (idx : List IndexFile)
    (packListing : List (RId × RId)) (id : RId)
    (h : ∀ f ∈ idx, ∀ p ∈ f.packs, ∀ b ∈ p.blobs, b.id ≠ id) :
    (check_packs idx packListing).2 = idx.flatMap (fun f => f.packs) ∧
    has_data (check_packs idx packListing).2 id = false := by
  have hcoll : (check_packs idx packListing).2 = idx.flatMap (fun f => f.packs) := by
    have h0 := index_phase_coll idx [] [] []
    rw [List.nil_append] at h0
    exact h0
  refine ⟨hcoll, ?_⟩
  rw [hcoll]
  simp only [has_data, List.any_eq_false, List.mem_flatMap, List.any_eq_true,
    beq_iff_eq, not_exists, not_and]
  rintro p ⟨f, hf, hp⟩ b hb hbid
  exact h f hf p hp b hb hbid

/-- C7, witnessed on one index file whose deleted pack holds blob 5 while the
live pack holds blob 1 only. -/
theorem claim_C7_collector_skips_packs_to_delete_witness :
    (check_packs [IndexFile.mk [IndexPack.mk 10 .data 40 [IndexBlob.mk 1 .data 0 40]]
        [IndexPack.mk 11 .data 40 [IndexBlob.mk 5 .data 0 40]]] []).2 =
      [IndexPack.mk 10 .data 40 [IndexBlob.mk 1 .data 0 40]] ∧
    has_data (check_packs
      [IndexFile.mk [IndexPack.mk 10 .data 40 [IndexBlob.mk 1 .data 0 40]]
        [IndexPack.mk 11 .data 40 [IndexBlob.mk 5 .data 0 40]]] []).2 5 = false :=
  claim_C7_collector_skips_packs_to_delete _ _ 5 (by decide)

/-! ### Claim C3 -/

lemma check_node_diags_file (hD : RId → Bool) (path : List String) (node : Node)
    (h : node.node_type = .file) :
    check_node_diags hD path node =
      node.content.enum.flatMap (file_entry_diags hD (path ++ [node.name])) := by
  unfold check_node_diags
  rw [h]

lemma count_nullId_enumFrom_lt (hD : RId → Bool) (p : List String) (l : List RId) :
    ∀ n j, j < n →
      ((List.enumFrom n l).flatMap (file_entry_diags hD p)).count
        (Diag.fileNullId p j) = 0 := by
  induction l with
  | nil => intro n j h; rfl
  | cons a rest ih =>
    intro n j h
    rw [List.enumFrom_cons, List.flatMap_cons, List.count_append]
    have hnj : ¬ n = j := by omega
    have h1 : (file_entry_diags hD p (n, a)).count (Diag.fileNullId p j) = 0 := by
      by_cases ha : a.is_null <;> by_cases hd : hD a <;>
        simp [file_entry_diags, ha, hd, List.count_cons, hnj]
    rw [h1, ih (n + 1) j (by omega)]

lemma count_nullId_enumFrom (hD : RId → Bool) (p : List String) (l : List RId) :
    ∀ n i id, l[i]? = some id → id.is_null = true →
      ((List.enumFrom n l).flatMap (file_entry_diags hD p)).count
        (Diag.fileNullId p (n + i)) = 1 := by
  induction l with
  | nil => intro n i id hget; simp at hget
  | cons a rest ih =>
    intro n i id hget hnull
    rw [List.enumFrom_cons, List.flatMap_cons, List.count_append]
    cases i with
    | zero =>
      rw [List.getElem?_cons_zero] at hget
      obtain rfl : a = id := by injection hget
      have h1 : (file_entry_diags hD p (n, a)).count (Diag.fileNullId p (n + 0)) = 1 := by
        by_cases hd : hD a <;>
          simp [file_entry_diags, hnull, hd, List.count_cons]
      rw [h1, count_nullId_enumFrom_lt hD p rest (n + 1) (n + 0) (by omega)]
    | succ i' =>
      rw [List.getElem?_cons_succ] at hget
      have h1 : (file_entry_diags hD p (n, a)).count (Diag.fileNullId p (n + (i' + 1))) = 0 := by
        have hne : ¬ n = n + (i' + 1) := by omega
        by_cases ha : a.is_null <;> by_cases hd : hD a <;>
          simp [file_entry_diags, ha, hd, List.count_cons, hne]
      rw [h1, Nat.zero_add]
      have := ih (n + 1) i' id hget hnull
      rw [show n + 1 + i' = n + (i' + 1) by omega] at this
      exact this

lemma count_missing_enumFrom (hD : RId → Bool) (p : List String) (id : RId)
    (hid : hD id = false) (l : List RId) :
    ∀ n, ((List.enumFrom n l).flatMap (file_entry_diags hD p)).count
      (Diag.fileMissingInIndex p id) = l.count id := by
  induction l with
  | nil => intro n; rfl
  | cons a rest ih =>
    intro n
    rw [List.enumFrom_cons, List.flatMap_cons, List.count_append, ih (n + 1)]
    rw [List.count_cons]
    by_cases hai : a = id
    · subst hai
      have h1 : (file_entry_diags hD p (n, a)).count (Diag.fileMissingInIndex p a) = 1 := by
        by_cases ha : a.is_null <;> simp [file_entry_diags, ha, hid, List.count_cons]
      rw [h1]
      simp only [beq_self_eq_true, if_true]
      omega
    · have h1 : (file_entry_diags hD p (n, a)).count (Diag.fileMissingInIndex p id) = 0 := by
        by_cases ha : a.is_null <;> by_cases hd : hD a <;>
          simp [file_entry_diags, ha, hd, List.count_cons, hai]
      rw [h1]
      simp [hai]

/-- C3 (counterexample) — the claim says a File node whose content holds the
null Id yields exactly one null-ID diagnostic and NO missing-in-index
diagnostic for that Id.  On the code the two checks are independent (no
`else`, check.rs lines 193-203): a file node with content `[1, 0]` against an
index resolving only blob 1 yields the null-ID diagnostic AND a
missing-in-index diagnostic for the null Id 0. -/
theorem claim_C3_counterexample :
    check_snapshots_diags
      (has_data [IndexPack.mk 10 .data 40 [IndexBlob.mk 1 .data 0 40]])
      [([], Tree.mk [Node.mk "f" .file sampleMeta none [1, 0]])] =
      [.fileNullId ["f"] 1, .fileMissingInIndex ["f"] 0] := by
  rfl

/-- C3 (amended) — for a File node reached by the graph check holding the null
Id at position `i`, exactly one null-ID diagnostic is emitted for that
position; and whenever the index lookup does not resolve the null Id, a
missing-in-index diagnostic is ALSO emitted for it — one per content position
holding it (at least one), the two checks being independent. -/
theorem claim_C3_file_null_diags (hD : RId → Bool) (path : List String)
    (node : Node) (hfile : node.node_type = .file) (i : Nat) (id : RId)
    (hget : node.content[i]? = some id) (hnull : id.is_null = true) :
    (check_node_diags hD path node).count
      (.fileNullId (path ++ [node.name]) i) = 1 ∧
    (hD id = false →
      (check_node_diags hD path node).count
        (.fileMissingInIndex (path ++ [node.name]) id) = node.content.count id ∧
      0 < node.content.count id) := by
  rw [check_node_diags_file hD path node hfile]
  constructor
  · have h := count_nullId_enumFrom hD (path ++ [node.name]) node.content 0 i id hget hnull
    simpa [List.enum] using h
  · intro hid
    refine ⟨?_, ?_⟩
    · have h := count_missing_enumFrom hD (path ++ [node.name]) id hid node.content 0
      simpa [List.enum] using h
    · rw [List.count_pos_iff]
      exact List.getElem?_mem hget

/-- C3 amended, witnessed on the `[1, 0]` file node: position 1 holds the null
Id and gets exactly one null-ID diagnostic. -/
theorem claim_C3_file_null_diags_witness :
    (check_node_diags (has_data [IndexPack.mk 10 .data 40 [IndexBlob.mk 1 .data 0 40]])
      [] (Node.mk "f" .file sampleMeta none [1, 0])).count
      (.fileNullId ["f"] 1) = 1 :=
  (claim_C3_file_null_diags
    (has_data [IndexPack.mk 10 .data 40 [IndexBlob.mk 1 .data 0 40]])
    [] (Node.mk "f" .file sampleMeta none [1, 0]) rfl 1 0 rfl rfl).1

/-! ### Claim C5 -/

/-- Number of positions whose offset differs from the running sum of the
preceding blobs' lengths, starting at `e` (claim-side characterization). -/
def offsetViolations : Nat → List IndexBlob → Nat
  | _, [] => 0
  | e, b :: r => (if b.offset ≠ e then 1 else 0) + offsetViolations (e + b.length) r

/-- Whether a diagnostic is a blob-offset mismatch. -/
def Diag.isOffsetDiag : Diag → Bool
  | .blobOffsetMismatch _ _ _ _ => true
  | _ => false

/-- Whether a diagnostic is a blob-kind mismatch. -/
def Diag.isKindDiag : Diag → Bool
  | .blobTypeMismatch _ _ _ _ => true
  | _ => false

lemma processPackLoop_countP_kind (pid : RId) (bt : BlobType) :
    ∀ (s : List IndexBlob) (e : Nat),
      (processPackLoop pid bt e s).countP Diag.isKindDiag =
        s.countP (fun b => !(b.tpe == bt)) := by
  intro s
  induction s with
  | nil => intro e; rfl
  | cons b r ih =>
    intro e
    rw [processPackLoop, List.countP_append, List.countP_append, ih]
    rw [List.countP_cons]
    by_cases hk : b.tpe = bt <;> by_cases ho : b.offset = e <;>
      simp [hk, ho, Diag.isKindDiag, List.countP_cons] <;> omega

lemma processPackLoop_countP_offset (pid : RId) (bt : BlobType) :
    ∀ (s : List IndexBlob) (e : Nat),
      e + (s.map (fun b => b.length)).sum < 2 ^ 32 →
      (processPackLoop pid bt e s).countP Diag.isOffsetDiag = offsetViolations e s := by
  intro s
  induction s with
  | nil => intro e h; rfl
  | cons b r ih =>
    intro e h
    rw [List.map_cons, List.sum_cons] at h
    have hwrap : (e + b.length) % 2 ^ 32 = e + b.length :=
      Nat.mod_eq_of_lt (by omega)
    rw [processPackLoop, List.countP_append, List.countP_append, hwrap,
      ih (e + b.length) (by omega), offsetViolations]
    by_cases hk : b.tpe = bt <;> by_cases ho : b.offset = e <;>
      simp [hk, ho, Diag.isOffsetDiag, List.countP_cons] <;> omega

lemma pack_fold_diags (l : List IndexPack) :
    ∀ (d : List Diag) (m : List (RId × Nat)),
      (l.foldl
        (fun (dm : List Diag × List (RId × Nat)) (p : IndexPack) =>
          (dm.1 ++ process_pack_diags p, pmInsert dm.2 p.id p.pack_size))
        (d, m)).1 = d ++ l.flatMap process_pack_diags := by
  induction l with
  | nil => intro d m; simp
  | cons p rest ih =>
    intro d m
    rw [List.foldl_cons, ih, List.flatMap_cons, List.append_assoc]

lemma index_phase_diags (idx : List IndexFile) :
    ∀ d m c, (idx.foldl index_phase_step (d, m, c)).1 =
      d ++ idx.flatMap
        (fun f => (f.packs ++ f.packs_to_delete).flatMap process_pack_diags) := by
  induction idx with
  | nil => intro d m c; simp
  | cons f rest ih =>
    intro d m c
    rw [List.foldl_cons]
    rcases hstep : index_phase_step (d, m, c) f with ⟨d', m', c'⟩
    have h0 : (index_phase_step (d, m, c) f).1 =
        d ++ (f.packs ++ f.packs_to_delete).flatMap process_pack_diags :=
      pack_fold_diags (f.packs ++ f.packs_to_delete) d m
    rw [hstep] at h0
    have h0' : d' = d ++ (f.packs ++ f.packs_to_delete).flatMap process_pack_diags := h0
    rw [ih d' m' c', h0', List.flatMap_cons, List.append_assoc]

/-- C5 — the index-streaming phase runs the per-pack checks over every pack of
every streamed index file, from both `packs` and `packs_to_delete`, with no
early abort (the emitted diagnostics are exactly the concatenation of the
per-pack diagnostics); and, per pack, on the blobs sorted by offset the check
emits one kind diagnostic per blob whose kind differs from the pack's kind,
and one offset diagnostic per blob whose offset differs from the running sum
of the preceding blobs' lengths starting at 0 (hypothesis: the total length
stays below `2^32`, so the `u32` running sum does not wrap). -/
theorem claim_C5_per_pack_checks :
    (∀ idx : List IndexFile, (index_phase idx).1 =
      idx.flatMap
        (fun f => (f.packs ++ f.packs_to_delete).flatMap process_pack_diags)) ∧
    (∀ p : IndexPack,
      ((sortByOffset p.blobs).map (fun b => b.length)).sum < 2 ^ 32 →
      (process_pack_diags p).countP Diag.isKindDiag =
        (sortByOffset p.blobs).countP (fun b => !(b.tpe == p.blob_type)) ∧
      (process_pack_diags p).countP Diag.isOffsetDiag =
        offsetViolations 0 (sortByOffset p.blobs)) := by
  constructor
  · intro idx
    have h := index_phase_diags idx [] [] []
    rw [List.nil_append] at h
    exact h
  · intro p h
    refine ⟨processPackLoop_countP_kind p.id p.blob_type (sortByOffset p.blobs) 0, ?_⟩
    exact processPackLoop_countP_offset p.id p.blob_type (sortByOffset p.blobs) 0
      (by omega)

/-- C5, witnessed on a pack with one kind violation and one offset violation
(blob at offset 110 while the running sum expects 100). -/
theorem claim_C5_per_pack_checks_witness :
    (process_pack_diags (IndexPack.mk 3 .data 350
        [IndexBlob.mk 1 .data 0 100, IndexBlob.mk 2 .tree 110 200])).countP
      Diag.isOffsetDiag =
    offsetViolations 0 (sortByOffset
        [IndexBlob.mk 1 .data 0 100, IndexBlob.mk 2 .tree 110 200]) :=
  (claim_C5_per_pack_checks.2 (IndexPack.mk 3 .data 350
    [IndexBlob.mk 1 .data 0 100, IndexBlob.mk 2 .tree 110 200]) (by decide)).2

/-! ### Claim C6: map-layer lemmas -/

lemma pmLookup_remove_ne (k id : RId) (h : id ≠ k) :
    ∀ m, pmLookup (pmRemove m k) id = pmLookup m id := by
  intro m
  induction m with
  | nil => rfl
  | cons kv rest ih =>
    obtain ⟨k', v'⟩ := kv
    by_cases hk : k = k'
    · subst hk
      simp [pmRemove, pmLookup, h]
    · simp only [pmRemove, if_neg hk, pmLookup]
      by_cases hik : id = k'
      · simp [hik]
      · simp only [if_neg hik]
        exact ih

lemma pmLookup_some_mem (id : RId) :
    ∀ m v, pmLookup m id = some v → id ∈ pmKeys m := by
  intro m
  induction m with
  | nil => intro v h; simp [pmLookup] at h
  | cons kv rest ih =>
    obtain ⟨k', v'⟩ := kv
    intro v h
    by_cases hik : id = k'
    · simp [pmKeys, hik]
    · simp only [pmLookup, if_neg hik] at h
      simp only [pmKeys, List.map_cons, List.mem_cons]
      exact Or.inr (ih v h)

lemma pmLookup_isSome_of_mem (id : RId) :
    ∀ m, id ∈ pmKeys m → ∃ v, pmLookup m id = some v := by
  intro m
  induction m with
  | nil => intro h; simp [pmKeys] at h
  | cons kv rest ih =>
    obtain ⟨k', v'⟩ := kv
    intro h
    by_cases hik : id = k'
    · exact ⟨v', by simp [pmLookup, hik]⟩
    · simp only [pmKeys, List.map_cons, List.mem_cons] at h
      rcases h with h | h
      · exact absurd h hik
      · obtain ⟨v, hv⟩ := ih h
        exact ⟨v, by simp only [pmLookup, if_neg hik]; exact hv⟩

lemma mem_pmKeys_insert (k : RId) (v : Nat) (a : RId) :
    ∀ m, (a ∈ pmKeys (pmInsert m k v) ↔ a ∈ pmKeys m ∨ a = k) := by
  intro m
  induction m with
  | nil => simp [pmInsert, pmKeys]
  | cons kv rest ih =>
    obtain ⟨k', v'⟩ := kv
    by_cases hk : k = k'
    · subst hk
      simp [pmInsert, pmKeys]
      tauto
    · simp only [pmInsert, if_neg hk, pmKeys, List.map_cons, List.mem_cons]
      rw [show List.map Prod.fst (pmInsert rest k v) = pmKeys (pmInsert rest k v) from rfl]
      rw [ih]
      tauto

lemma mem_pmKeys_remove (k a : RId) :
    ∀ m, a ∈ pmKeys (pmRemove m k) → a ∈ pmKeys m := by
  intro m
  induction m with
  | nil => intro h; exact h
  | cons kv rest ih =>
    obtain ⟨k', v'⟩ := kv
    by_cases hk : k = k'
    · subst hk
      simp only [pmRemove, if_pos rfl, pmKeys, List.map_cons, List.mem_cons]
      intro h
      exact Or.inr h
    · simp only [pmRemove, if_neg hk, pmKeys, List.map_cons, List.mem_cons]
      rintro (h | h)
      · exact Or.inl h
      · exact Or.inr (ih h)

lemma nodup_pmInsert (k : RId) (v : Nat) :
    ∀ m, (pmKeys m).Nodup → (pmKeys (pmInsert m k v)).Nodup := by
  intro m
  induction m with
  | nil => intro h; simp [pmInsert, pmKeys]
  | cons kv rest ih =>
    obtain ⟨k', v'⟩ := kv
    intro h
    simp only [pmKeys, List.map_cons, List.nodup_cons] at h
    by_cases hk : k = k'
    · subst hk
      have hgoal : pmInsert ((k, v') :: rest) k v = (k, v) :: rest := by
        simp [pmInsert]
      rw [hgoal]
      simp only [pmKeys, List.map_cons, List.nodup_cons]
      exact ⟨h.1, h.2⟩
    · simp only [pmInsert, if_neg hk, pmKeys, List.map_cons, List.nodup_cons]
      constructor
      · intro hmem
        rcases (mem_pmKeys_insert k v k' rest).mp hmem with h' | h'
        · exact h.1 h'
        · exact hk h'.symm
      · exact ih h.2

lemma nodup_pmRemove (k : RId) :
    ∀ m, (pmKeys m).Nodup → (pmKeys (pmRemove m k)).Nodup := by
  intro m
  induction m with
  | nil => intro h; exact h
  | cons kv rest ih =>
    obtain ⟨k', v'⟩ := kv
    intro h
    simp only [pmKeys, List.map_cons, List.nodup_cons] at h
    by_cases hk : k = k'
    · subst hk
      simpa [pmRemove, pmKeys] using h.2
    · simp only [pmRemove, if_neg hk, pmKeys, List.map_cons, List.nodup_cons]
      exact ⟨fun hmem => h.1 (mem_pmKeys_remove k k' rest hmem), ih h.2⟩

lemma pack_fold_map_nodup (l : List IndexPack) :
    ∀ (d : List Diag) (m : List (RId × Nat)), (pmKeys m).Nodup →
      (pmKeys (l.foldl
        (fun (dm : List Diag × List (RId × Nat)) (p : IndexPack) =>
          (dm.1 ++ process_pack_diags p, pmInsert dm.2 p.id p.pack_size))
        (d, m)).2).Nodup := by
  induction l with
  | nil => intro d m h; exact h
  | cons p rest ih =>
    intro d m h
    rw [List.foldl_cons]
    exact ih _ _ (nodup_pmInsert p.id p.pack_size m h)

lemma index_phase_map_nodup (idx : List IndexFile) :
    ∀ d m c, (pmKeys m).Nodup →
      (pmKeys (idx.foldl index_phase_step (d, m, c)).2.1).Nodup := by
  induction idx with
  | nil => intro d m c h; exact h
  | cons f rest ih =>
    intro d m c h
    rw [List.foldl_cons]
    rcases hstep : index_phase_step (d, m, c) f with ⟨d', m', c'⟩
    have h1 : (pmKeys (index_phase_step (d, m, c) f).2.1).Nodup :=
      pack_fold_map_nodup (f.packs ++ f.packs_to_delete) d m h
    rw [hstep] at h1
    exact ih d' m' c' h1

/-! ### Claim C6: reconciliation-layer lemmas -/

lemma reconcile_map_lookup (L : List (RId × Nat)) :
    ∀ m id, id ∉ L.map Prod.fst →
      pmLookup (reconcile m L).2 id = pmLookup m id := by
  induction L with
  | nil => intro m id h; rfl
  | cons p rest ih =>
    obtain ⟨id', s'⟩ := p
    intro m id h
    simp only [List.map_cons, List.mem_cons] at h
    push_neg at h
    cases hm : pmLookup m id' with
    | none =>
      simp only [reconcile, hm]
      exact ih m id h.2
    | some isz =>
      simp only [reconcile, hm]
      rw [ih (pmRemove m id') id h.2]
      exact pmLookup_remove_ne id' id h.1 m

lemma reconcile_map_nodup (L : List (RId × Nat)) :
    ∀ m, (pmKeys m).Nodup → (pmKeys (reconcile m L).2).Nodup := by
  induction L with
  | nil => intro m h; exact h
  | cons p rest ih =>
    obtain ⟨id', s'⟩ := p
    intro m h
    cases hm : pmLookup m id' with
    | none =>
      simp only [reconcile, hm]
      exact ih m h
    | some isz =>
      simp only [reconcile, hm]
      exact ih (pmRemove m id') (nodup_pmRemove id' m h)

lemma reconcile_count_notref_zero (L : List (RId × Nat)) :
    ∀ m id, id ∉ L.map Prod.fst →
      (reconcile m L).1.count (Diag.packNotReferenced id) = 0 := by
  induction L with
  | nil => intro m id h; rfl
  | cons p rest ih =>
    obtain ⟨id', s'⟩ := p
    intro m id h
    simp only [List.map_cons, List.mem_cons] at h
    push_neg at h
    cases hm : pmLookup m id' with
    | none =>
      simp only [reconcile, hm, List.count_cons]
      rw [ih m id h.2]
      simp [Ne.symm h.1]
    | some isz =>
      simp only [reconcile, hm, List.count_append]
      rw [ih (pmRemove m id') id h.2]
      by_cases hsz : isz ≠ s' <;> simp [hsz]

lemma reconcile_count_sizemm_zero (L : List (RId × Nat)) :
    ∀ m id isz size, id ∉ L.map Prod.fst →
      (reconcile m L).1.count (Diag.packSizeMismatch id isz size) = 0 := by
  induction L with
  | nil => intro m id isz size h; rfl
  | cons p rest ih =>
    obtain ⟨id', s'⟩ := p
    intro m id isz size h
    simp only [List.map_cons, List.mem_cons] at h
    push_neg at h
    cases hm : pmLookup m id' with
    | none =>
      simp only [reconcile, hm, List.count_cons]
      rw [ih m id isz size h.2]
      simp
    | some isz' =>
      simp only [reconcile, hm, List.count_append]
      rw [ih (pmRemove m id') id isz size h.2]
      by_cases hsz : isz' ≠ s' <;> simp [hsz, List.count_cons, Ne.symm h.1]

lemma reconcile_count_missing_zero (L : List (RId × Nat)) :
    ∀ m id, (reconcile m L).1.count (Diag.packMissing id) = 0 := by
  induction L with
  | nil => intro m id; rfl
  | cons p rest ih =>
    obtain ⟨id', s'⟩ := p
    intro m id
    cases hm : pmLookup m id' with
    | none =>
      simp only [reconcile, hm, List.count_cons]
      rw [ih m id]
      simp
    | some isz =>
      simp only [reconcile, hm, List.count_append]
      rw [ih (pmRemove m id') id]
      by_cases hsz : isz ≠ s' <;> simp [hsz]

lemma reconcile_count_notref_one (L : List (RId × Nat)) :
    ∀ m id size, (L.map Prod.fst).Nodup → (id, size) ∈ L →
      pmLookup m id = none →
      (reconcile m L).1.count (Diag.packNotReferenced id) = 1 := by
  induction L with
  | nil => intro m id size hn hmem; simp at hmem
  | cons p rest ih =>
    obtain ⟨id', s'⟩ := p
    intro m id size hn hmem hlook
    simp only [List.map_cons, List.nodup_cons] at hn
    by_cases hid : id' = id
    · subst hid
      simp only [reconcile, hlook, List.count_cons]
      rw [reconcile_count_notref_zero rest m id' hn.1]
      simp
    · have hmem' : (id, size) ∈ rest := by
        rcases List.mem_cons.mp hmem with heq | h'
        · exact absurd (congrArg Prod.fst heq).symm hid
        · exact h'
      cases hm : pmLookup m id' with
      | none =>
        simp only [reconcile, hm, List.count_cons]
        rw [ih m id size hn.2 hmem' hlook]
        simp [hid]
      | some isz =>
        simp only [reconcile, hm, List.count_append]
        rw [ih (pmRemove m id') id size hn.2 hmem'
          (by rw [pmLookup_remove_ne id' id (fun hh => hid hh.symm) m]; exact hlook)]
        by_cases hsz : isz ≠ s' <;> simp [hsz]

lemma reconcile_count_sizemm_one (L : List (RId × Nat)) :
    ∀ m id size isz, (L.map Prod.fst).Nodup → (id, size) ∈ L →
      pmLookup m id = some isz → isz ≠ size →
      (reconcile m L).1.count (Diag.packSizeMismatch id isz size) = 1 := by
  induction L with
  | nil => intro m id size isz hn hmem; simp at hmem
  | cons p rest ih =>
    obtain ⟨id', s'⟩ := p
    intro m id size isz hn hmem hlook hne
    simp only [List.map_cons, List.nodup_cons] at hn
    by_cases hid : id' = id
    · subst hid
      have hsz : s' = size := by
        rcases List.mem_cons.mp hmem with heq | h'
        · exact (congrArg Prod.snd heq).symm
        · exact absurd (List.mem_map_of_mem Prod.fst h') hn.1
      subst hsz
      simp only [reconcile, hlook, List.count_append]
      rw [reconcile_count_sizemm_zero rest (pmRemove m id') id' isz s' hn.1]
      simp [hne]
    · have hmem' : (id, size) ∈ rest := by
        rcases List.mem_cons.mp hmem with heq | h'
        · exact absurd (congrArg Prod.fst heq).symm hid
        · exact h'
      cases hm : pmLookup m id' with
      | none =>
        simp only [reconcile, hm, List.count_cons]
        rw [ih m id size isz hn.2 hmem' hlook hne]
        simp [hid]
      | some isz' =>
        simp only [reconcile, hm, List.count_append]
        rw [ih (pmRemove m id') id size isz hn.2 hmem'
          (by rw [pmLookup_remove_ne id' id (fun hh => hid hh.symm) m]; exact hlook) hne]
        by_cases hsz : isz' ≠ s' <;> simp [hsz, List.count_cons, hid]

/-! ### Claim C6: leftover and phase-2 shape lemmas -/

lemma leftover_count_missing (m' : List (RId × Nat)) (id : RId)
    (hn : (pmKeys m').Nodup) (hmem : id ∈ pmKeys m') :
    (leftover_diags m').count (Diag.packMissing id) = 1 := by
  have hinj : Function.Injective Diag.packMissing := by
    intro a b h
    injection h
  have hshape : leftover_diags m' = (pmKeys m').map Diag.packMissing := by
    simp [leftover_diags, pmKeys, List.map_map, Function.comp]
  rw [hshape, List.count_map_of_injective _ Diag.packMissing hinj id]
  exact List.count_eq_one_of_mem hn hmem

lemma leftover_count_notref (m' : List (RId × Nat)) (id : RId) :
    (leftover_diags m').count (Diag.packNotReferenced id) = 0 := by
  rw [List.count_eq_zero]
  intro hmem
  simp [leftover_diags, List.mem_map] at hmem

lemma leftover_count_sizemm (m' : List (RId × Nat)) (id : RId) (isz size : Nat) :
    (leftover_diags m').count (Diag.packSizeMismatch id isz size) = 0 := by
  rw [List.count_eq_zero]
  intro hmem
  simp [leftover_diags, List.mem_map] at hmem

lemma mem_processPackLoop (pid : RId) (bt : BlobType) :
    ∀ (s : List IndexBlob) (e : Nat) (d : Diag), d ∈ processPackLoop pid bt e s →
      d.isOffsetDiag = true ∨ d.isKindDiag = true := by
  intro s
  induction s with
  | nil => intro e d hd; simp [processPackLoop] at hd
  | cons b r ih =>
    intro e d hd
    rw [processPackLoop] at hd
    simp only [List.mem_append] at hd
    rcases hd with (h1 | h2) | h3
    · by_cases hk : b.tpe = bt
      · simp [hk] at h1
      · simp [hk] at h1
        subst h1
        exact Or.inr rfl
    · by_cases ho : b.offset = e
      · simp [ho] at h2
      · simp [ho] at h2
        subst h2
        exact Or.inl rfl
    · exact ih _ d h3

lemma index_phase_count_zero (idx : List IndexFile) (dg : Diag)
    (ho : dg.isOffsetDiag = false) (hk : dg.isKindDiag = false) :
    (index_phase idx).1.count dg = 0 := by
  have hd : (index_phase idx).1 = idx.flatMap
      (fun f => (f.packs ++ f.packs_to_delete).flatMap process_pack_diags) := by
    have h0 := index_phase_diags idx [] [] []
    rw [List.nil_append] at h0
    exact h0
  rw [hd, List.count_eq_zero]
  intro hmem
  rw [List.mem_flatMap] at hmem
  obtain ⟨f, _, hmem⟩ := hmem
  rw [List.mem_flatMap] at hmem
  obtain ⟨p, _, hmem⟩ := hmem
  rcases mem_processPackLoop p.id p.blob_type (sortByOffset p.blobs) 0 dg hmem with h | h
  · rw [ho] at h
    exact absurd h (by simp)
  · rw [hk] at h
    exact absurd h (by simp)

/-- C6 — the backend-listing reconciliation of `check_packs`: given a
duplicate-free backend listing, every listed pack absent from the accumulated
index map gets exactly one "not referenced in index" diagnostic; every listed
pack present in the map with a differing size gets exactly one size-mismatch
diagnostic; and every pack Id of the accumulated map not matched by the
listing gets exactly one "referenced by the index but not present"
diagnostic — counted over the complete diagnostic output of `check_packs`. -/
theorem claim_C6_backend_reconciliation (idx : List IndexFile)
    (L : List (RId × Nat)) (hL : (L.map Prod.fst).Nodup) :
    (∀ id size, (id, size) ∈ L → pmLookup (index_phase idx).2.1 id = none →
      (check_packs idx L).1.count (.packNotReferenced id) = 1) ∧
    (∀ id size isz, (id, size) ∈ L → pmLookup (index_phase idx).2.1 id = some isz →
      isz ≠ size →
      (check_packs idx L).1.count (.packSizeMismatch id isz size) = 1) ∧
    (∀ id, id ∈ pmKeys (index_phase idx).2.1 → id ∉ L.map Prod.fst →
      (check_packs idx L).1.count (.packMissing id) = 1) := by
  have hfull : (check_packs idx L).1 =
      (index_phase idx).1 ++ (reconcile (index_phase idx).2.1 L).1 ++
        leftover_diags (reconcile (index_phase idx).2.1 L).2 := rfl
  have hmn : (pmKeys (index_phase idx).2.1).Nodup :=
    index_phase_map_nodup idx [] [] [] (by simp [pmKeys])
  refine ⟨?_, ?_, ?_⟩
  · intro id size hmem hlook
    rw [hfull, List.count_append, List.count_append]
    rw [index_phase_count_zero idx (Diag.packNotReferenced id) rfl rfl,
      reconcile_count_notref_one L (index_phase idx).2.1 id size hL hmem hlook,
      leftover_count_notref _ id]
  · intro id size isz hmem hlook hne
    rw [hfull, List.count_append, List.count_append]
    rw [index_phase_count_zero idx (Diag.packSizeMismatch id isz size) rfl rfl,
      reconcile_count_sizemm_one L (index_phase idx).2.1 id size isz hL hmem hlook hne,
      leftover_count_sizemm _ id isz size]
  · intro id hmem hnot
    rw [hfull, List.count_append, List.count_append]
    rw [index_phase_count_zero idx (Diag.packMissing id) rfl rfl,
      reconcile_count_missing_zero L (index_phase idx).2.1 id]
    obtain ⟨v, hv⟩ := pmLookup_isSome_of_mem id (index_phase idx).2.1 hmem
    have hlook2 : pmLookup (reconcile (index_phase idx).2.1 L).2 id = some v := by
      rw [reconcile_map_lookup L (index_phase idx).2.1 id hnot]
      exact hv
    rw [leftover_count_missing (reconcile (index_phase idx).2.1 L).2 id
      (reconcile_map_nodup L (index_phase idx).2.1 hmn)
      (pmLookup_some_mem id (reconcile (index_phase idx).2.1 L).2 v hlook2)]

/-- C6, witnessed on one index file with pack 10 (size 40) and a backend
listing holding pack 10 at size 50 (one size-mismatch diagnostic) and the
unindexed pack 77 (one orphan diagnostic); pack 11 of the index is unlisted
(one missing diagnostic). -/
theorem claim_C6_backend_reconciliation_witness :
    (check_packs [IndexFile.mk [IndexPack.mk 10 .data 40 [IndexBlob.mk 1 .data 0 40]]
        [IndexPack.mk 11 .data 30 [IndexBlob.mk 5 .data 0 30]]]
      [(10, 50), (77, 9)]).1.count (.packNotReferenced 77) = 1 :=
  (claim_C6_backend_reconciliation
      [IndexFile.mk [IndexPack.mk 10 .data 40 [IndexBlob.mk 1 .data 0 40]]
        [IndexPack.mk 11 .data 30 [IndexBlob.mk 5 .data 0 30]]]
      [(10, 50), (77, 9)] (by decide)).1 77 9 (by decide) (by decide)

/-! ### Claim C4 -/

/-- Whether a fallible collaborator call succeeded. -/
def exOk {ε α : Type} : Except ε α → Bool
  | .ok _ => true
  | .error _ => false

/-- Whether a checker run returned success (diagnostics notwithstanding). -/
def runOk : Option (Except Nat (List Diag)) → Bool
  | some (.ok _) => true
  | _ => false

lemma exOk_exists {ε α : Type} (x : Except ε α) (h : exOk x = true) :
    ∃ v, x = .ok v := by
  cases x with
  | ok v => exact ⟨v, rfl⟩
  | error e => simp [exOk] at h

lemma cache_compare_total (cache : CacheBe) (raw : RawBe) (ft : FileType)
    (h5 : ∀ id, exOk (cache.read_full ft id) = true)
    (h6 : ∀ id, exOk (raw.read_full ft id) = true) :
    ∀ files, ∃ d, cache_compare cache raw ft files = some d := by
  intro files
  induction files with
  | nil => exact ⟨[], rfl⟩
  | cons f rest ih =>
    obtain ⟨id, sz⟩ := f
    obtain ⟨v1, hv1⟩ := exOk_exists _ (h5 id)
    obtain ⟨v2, hv2⟩ := exOk_exists _ (h6 id)
    obtain ⟨d, hd⟩ := ih
    refine ⟨(if v1 ≠ v2 then [.cacheMismatch ft id] else []) ++ d, ?_⟩
    simp [cache_compare, hv1, hv2, hd]

lemma check_cache_files_ok (cache : CacheBe) (raw : RawBe) (ft : FileType)
    (h4 : exOk (cache.list_with_size ft) = true)
    (h5 : ∀ id, exOk (cache.read_full ft id) = true)
    (h6 : ∀ id, exOk (raw.read_full ft id) = true) :
    ∃ d, check_cache_files cache raw ft = some (.ok d) := by
  obtain ⟨files, hf⟩ := exOk_exists _ h4
  by_cases he : files.isEmpty
  · exact ⟨[], by simp [check_cache_files, hf, he]⟩
  · obtain ⟨d, hd⟩ := cache_compare_total cache raw ft h5 h6 files
    exact ⟨d, by simp [check_cache_files, hf, he, hd]⟩

/-- C4 (counterexample) — the claim says every fatal I/O failure, including
those inside Phase 1's cache-mirror comparisons, is propagated to the caller
as an error rather than terminating abnormally.  On the code the comparison
loop `.unwrap()`s both reads (check.rs lines 84-85): with a cache whose
`read_full` fails, the run panics (modelled `none`) instead of returning
`some (.error e)`. -/
theorem claim_C4_counterexample :
    execute (DecryptBe.mk (fun _ => .ok []) (.ok []) (.ok []))
      (some (CacheBe.mk (fun _ => .ok [(1, 4)]) (fun _ _ => .error 7)))
      (RawBe.mk (fun _ _ => .ok [])) (fun _ => .ok []) false = none := rfl

/-- C4 (amended) — a checker run returns success, independent of how many
diagnostics were emitted, whenever every collaborator operation succeeds and
`--read-data` is off; every fatal failure surfaced through `?` — the backend
listings of snapshot, index and pack files, the cache listings, the index
streaming, the snapshot streaming and the tree streaming — aborts the run and
propagates to the caller as an error; but a read failure inside Phase 1's
comparison loop panics (see the counterexample) instead of propagating. -/
theorem claim_C4_checker_error_policy (be : DecryptBe) (cache : CacheBe)
    (raw : RawBe) (streamTrees : List RId → Except Nat (List (List String × Tree)))
    (h1 : ∀ ft, exOk (be.list_with_size ft) = true)
    (h2 : exOk be.stream_index = true)
    (h3 : exOk be.stream_snapshots = true)
    (h4 : ∀ ft, exOk (cache.list_with_size ft) = true)
    (h5 : ∀ ft id, exOk (cache.read_full ft id) = true)
    (h6 : ∀ ft id, exOk (raw.read_full ft id) = true)
    (h7 : ∀ roots, exOk (streamTrees roots) = true) :
    runOk (execute be (some cache) raw streamTrees false) = true ∧
    (∀ (be' : DecryptBe) (e : Nat), be'.list_with_size .snapshot = .error e →
      execute be' (some cache) raw streamTrees false = some (.error e)) ∧
    (∀ (c' : CacheBe) (e : Nat), c'.list_with_size .snapshot = .error e →
      execute be (some c') raw streamTrees false = some (.error e)) ∧
    (∀ (be' : DecryptBe) (e : Nat), exOk (be'.list_with_size .snapshot) = true →
      be'.list_with_size .index = .error e →
      execute be' (some cache) raw streamTrees false = some (.error e)) ∧
    (∀ (c' : CacheBe) (e : Nat), exOk (c'.list_with_size .snapshot) = true →
      (∀ id, exOk (c'.read_full .snapshot id) = true) →
      c'.list_with_size .index = .error e →
      execute be (some c') raw streamTrees false = some (.error e)) ∧
    (∀ (be' : DecryptBe) (e : Nat), (∀ ft, exOk (be'.list_with_size ft) = true) →
      be'.stream_index = .error e →
      execute be' (some cache) raw streamTrees false = some (.error e)) ∧
    (∀ (be' : DecryptBe) (e : Nat), exOk (be'.list_with_size .snapshot) = true →
      exOk (be'.list_with_size .index) = true → exOk be'.stream_index = true →
      be'.list_with_size .pack = .error e →
      execute be' (some cache) raw streamTrees false = some (.error e)) ∧
    (∀ (c' : CacheBe) (e : Nat), exOk (c'.list_with_size .snapshot) = true →
      exOk (c'.list_with_size .index) = true →
      (∀ ft id, exOk (c'.read_full ft id) = true) →
      c'.list_with_size .pack = .error e →
      execute be (some c') raw streamTrees false = some (.error e)) ∧
    (∀ (be' : DecryptBe) (e : Nat), (∀ ft, exOk (be'.list_with_size ft) = true) →
      exOk be'.stream_index = true → be'.stream_snapshots = .error e →
      execute be' (some cache) raw streamTrees false = some (.error e)) ∧
    (∀ (st' : List RId → Except Nat (List (List String × Tree))) (e : Nat),
      (∀ roots, st' roots = .error e) →
      execute be (some cache) raw st' false = some (.error e)) := by
  obtain ⟨d1, hd1⟩ := check_cache_files_ok cache raw .snapshot (h4 _) (h5 _) (h6 _)
  obtain ⟨d2, hd2⟩ := check_cache_files_ok cache raw .index (h4 _) (h5 _) (h6 _)
  obtain ⟨d3, hd3⟩ := check_cache_files_ok cache raw .pack (h4 _) (h5 _) (h6 _)
  obtain ⟨v1, hv1⟩ := exOk_exists _ (h1 .snapshot)
  obtain ⟨v2, hv2⟩ := exOk_exists _ (h1 .index)
  obtain ⟨v3, hv3⟩ := exOk_exists _ (h1 .pack)
  obtain ⟨idx, hidx⟩ := exOk_exists _ h2
  obtain ⟨snaps, hsnaps⟩ := exOk_exists _ h3
  refine ⟨?_, ?_, ?_, ?_, ?_, ?_, ?_, ?_, ?_, ?_⟩
  · obtain ⟨items, hitems⟩ := exOk_exists _ (h7 snaps)
    have hph1 : execute_phase1 be (some cache) raw = some (.ok (d1 ++ d2)) := by
      simp [execute_phase1, hv1, hv2, hd1, hd2]
    simp [execute, hph1, hidx, hv3, hd3, hsnaps, hitems, runOk]
  · intro be' e he
    simp [execute, execute_phase1, he]
  · intro c' e he
    have hc : check_cache_files c' raw .snapshot = some (.error e) := by
      simp [check_cache_files, he]
    simp [execute, execute_phase1, hv1, hc]
  · intro be' e hs he
    obtain ⟨w1, hw1⟩ := exOk_exists _ hs
    simp [execute, execute_phase1, hw1, hd1, he]
  · intro c' e hs hr he
    obtain ⟨w1, hw1⟩ := exOk_exists _ hs
    obtain ⟨e1, he1⟩ := check_cache_files_ok c' raw .snapshot hs hr (h6 _)
    have hc : check_cache_files c' raw .index = some (.error e) := by
      simp [check_cache_files, he]
    simp [execute, execute_phase1, hv1, hv2, he1, hc]
  · intro be' e hl he
    obtain ⟨w1, hw1⟩ := exOk_exists _ (hl .snapshot)
    obtain ⟨w2, hw2⟩ := exOk_exists _ (hl .index)
    have hph1 : execute_phase1 be' (some cache) raw = some (.ok (d1 ++ d2)) := by
      simp [execute_phase1, hw1, hw2, hd1, hd2]
    simp [execute, hph1, he]
  · intro be' e hs hi hst he
    obtain ⟨w1, hw1⟩ := exOk_exists _ hs
    obtain ⟨w2, hw2⟩ := exOk_exists _ hi
    obtain ⟨w3, hw3⟩ := exOk_exists _ hst
    have hph1 : execute_phase1 be' (some cache) raw = some (.ok (d1 ++ d2)) := by
      simp [execute_phase1, hw1, hw2, hd1, hd2]
    simp [execute, hph1, hw3, he]
  · intro c' e hs hi hr he
    obtain ⟨e1, he1⟩ := check_cache_files_ok c' raw .snapshot hs (hr _) (h6 _)
    obtain ⟨e2, he2⟩ := check_cache_files_ok c' raw .index hi (hr _) (h6 _)
    have hc : check_cache_files c' raw .pack = some (.error e) := by
      simp [check_cache_files, he]
    have hph1 : execute_phase1 be (some c') raw = some (.ok (e1 ++ e2)) := by
      simp [execute_phase1, hv1, hv2, he1, he2]
    simp [execute, hph1, hidx, hv3, hc]
  · intro be' e hl hst he
    obtain ⟨w1, hw1⟩ := exOk_exists _ (hl .snapshot)
    obtain ⟨w2, hw2⟩ := exOk_exists _ (hl .index)
    obtain ⟨w3, hw3⟩ := exOk_exists _ (hl .pack)
    obtain ⟨widx, hwidx⟩ := exOk_exists _ hst
    have hph1 : execute_phase1 be' (some cache) raw = some (.ok (d1 ++ d2)) := by
      simp [execute_phase1, hw1, hw2, hd1, hd2]
    simp [execute, hph1, hwidx, hw3, hd3, he]
  · intro st' e hst
    have hph1 : execute_phase1 be (some cache) raw = some (.ok (d1 ++ d2)) := by
      simp [execute_phase1, hv1, hv2, hd1, hd2]
    simp [execute, hph1, hidx, hv3, hd3, hsnaps, hst snaps]

/-- C4 amended, witnessed on collaborators whose every operation succeeds. -/
theorem claim_C4_checker_error_policy_witness :
    runOk (execute (DecryptBe.mk (fun _ => .ok []) (.ok []) (.ok []))
      (some (CacheBe.mk (fun _ => .ok []) (fun _ _ => .ok [])))
      (RawBe.mk (fun _ _ => .ok [])) (fun _ => .ok []) false) = true :=
  (claim_C4_checker_error_policy
    (DecryptBe.mk (fun _ => .ok []) (.ok []) (.ok []))
    (CacheBe.mk (fun _ => .ok []) (fun _ _ => .ok []))
    (RawBe.mk (fun _ _ => .ok [])) (fun _ => .ok [])
    (fun _ => rfl) rfl rfl (fun _ => rfl) (fun _ _ => rfl) (fun _ _ => rfl)
    (fun _ => rfl)).1

end Rustic
